import Mathlib

set_option maxRecDepth 8000

/-!
Shallow embedding of the `crate_interface` procedural-macro crate.

Source files embedded here:
* `src/naming.rs`    — symbol / guard / module name synthesis (`format_ident!`)
  and `extract_caller_args`
* `src/validator.rs` — `validate_fn_signature`
* `src/errors.rs`    — error constructors (modelled by their messages)
* `src/def_interface.rs` — the `def_interface` expansion and the
  `Self::method` rewriting of default bodies (`rewrite_self_in_default_body`)
* `src/impl_interface.rs` — the `impl_interface` expansion
* `src/lib.rs`       — the `call_interface` expansion

Rust `format!`/`format_ident!` templates are modelled by `fmt`, which
substitutes each placeholder pair `\x7b\x7d` by the next argument in order.
Emitted Rust items are modelled by the data that determines them: symbol
names, signatures, and the generated call expressions; method bodies carry a
denotation `List Int → Int` so that linking and calling can be evaluated.
-/

namespace CrateInterface

/-- Identifiers produced by `format_ident!` are modelled as plain strings. -/
abbrev Ident := String

/-- Character-level engine of Rust `format!`: each `\x7b\x7d` placeholder is
replaced by the next argument's characters; all other characters are copied. -/
def fmtAux : List Char → List String → List Char
  | [], _ => []
  | [c], _ => [c]
  | c1 :: c2 :: rest, args =>
    if c1 = '\x7b' ∧ c2 = '\x7d' then
      match args with
      | [] => fmtAux rest []
      | a :: tl => a.data ++ fmtAux rest tl
    else
      c1 :: fmtAux (c2 :: rest) args

/-- Model of Rust `format!` (and `format_ident!`) on a template string. -/
def fmt (template : String) (args : List String) : String :=
  ⟨fmtAux template.data args⟩

/-- From `src/naming.rs`: guard identifier against trait-name aliasing. -/
def alias_guard_name (trait_name : Ident) : Ident :=
  fmt "__MustNotAnAlias__\x7b\x7d" [trait_name]

/-- From `src/naming.rs`: guard identifier enforcing namespace matching. -/
def namespace_guard_name (ns : String) : Ident :=
  fmt "__NamespaceGuard__\x7b\x7d" [ns]

/-- From `src/naming.rs`: the extern symbol name synthesized from the optional
namespace, the trait name and the function name. -/
def extern_fn_name (ns : Option String) (trait_name fn_name : Ident) : Ident :=
  match ns with
  | some n => fmt "__\x7b\x7d_\x7b\x7d_\x7b\x7d" [n, trait_name, fn_name]
  | none => fmt "__\x7b\x7d_\x7b\x7d" [trait_name, fn_name]

/-- From `src/naming.rs`: the module name grouping the extern declarations of a
trait; it takes no namespace argument. -/
def extern_fn_mod_name (trait_name : Ident) : Ident :=
  fmt "__\x7b\x7d_mod" [trait_name]

/-- A function-argument pattern (`syn::Pat`): a plain identifier or anything
else. -/
inductive Pat
  | ident (name : Ident)
  | other
deriving DecidableEq

/-- A function argument (`syn::FnArg`): a receiver (`self`, `&self`,
`&mut self`) or a typed argument `pat: ty`. -/
inductive FnArg
  | receiver
  | typed (pat : Pat) (ty : String)
deriving DecidableEq

/-- A function signature (`syn::Signature`): its name, its generic parameters
and its ordered argument list. -/
structure Signature where
  ident : Ident
  generics : List Ident
  inputs : List FnArg
deriving DecidableEq

/-- A `syn::Error`, modelled by its message (spans are not modelled). -/
structure RustError where
  msg : String
deriving DecidableEq

/-- From `src/errors.rs`: `generic_not_allowed_error`. -/
def generic_not_allowed_error : RustError :=
  ⟨"generic parameters are not allowed in crate_interface"⟩

/-- From `src/validator.rs`: the error raised on a receiver argument. -/
def receiver_not_allowed_error : RustError :=
  ⟨"methods with receiver (self) are not allowed in crate_interface"⟩

/-- From `src/naming.rs`: the error raised on a non-identifier argument
pattern in `extract_caller_args`. -/
def unexpected_pattern_error : RustError :=
  ⟨"unexpected pattern in function argument"⟩

/-- The `format!` template of `weak_default_required_error` in
`src/errors.rs`. -/
def weak_default_msg_template : String :=
  "default implementation of method `\x7b\x7d` will not work as expected and therefore is not allowed without the `weak_default` feature. To use it, you need to enable the `weak_default` feature and use the nightly Rust toolchain, with #![feature(linkage)] at the top of your crate root."

/-- From `src/errors.rs`: `weak_default_required_error`, which interpolates the
offending method's name into its message. -/
def weak_default_required_error (fn_name : Ident) : RustError :=
  ⟨fmt weak_default_msg_template [fn_name]⟩

/-- The argument loop of `validate_fn_signature`: error at the first
receiver. -/
def check_receivers : List FnArg → Except RustError Unit
  | [] => .ok ()
  | FnArg.receiver :: _ => .error receiver_not_allowed_error
  | FnArg.typed _ _ :: rest => check_receivers rest

/-- From `src/validator.rs`: `validate_fn_signature` rejects generic
parameters, then any receiver argument. -/
def validate_fn_signature (sig : Signature) : Except RustError Unit :=
  if sig.generics ≠ [] then .error generic_not_allowed_error
  else check_receivers sig.inputs

/-- Helper for `extract_caller_args`: walk the argument list, skipping
receivers, collecting identifier patterns, failing on any other pattern. -/
def extract_args_list : List FnArg → Except RustError (List Ident)
  | [] => .ok []
  | FnArg.receiver :: rest => extract_args_list rest
  | FnArg.typed (Pat.ident x) _ :: rest =>
    match extract_args_list rest with
    | .ok tl => .ok (x :: tl)
    | .error e => .error e
  | FnArg.typed Pat.other _ :: _ => .error unexpected_pattern_error

/-- From `src/naming.rs`: `extract_caller_args` projects a signature to the
ordered list of its argument identifiers. -/
def extract_caller_args (sig : Signature) : Except RustError (List Ident) :=
  extract_args_list sig.inputs

/-- The ordered identifiers of the typed arguments of a signature (the
parameter list an emitted function with this signature would bind). -/
def typed_param_idents (sig : Signature) : List Ident :=
  sig.inputs.filterMap (fun a =>
    match a with
    | FnArg.typed (Pat.ident x) _ => some x
    | _ => none)

/-- A Rust expression, as far as the `Self::method` rewriter inspects it: a
path (a list of segments), a call of a function expression on an argument
expression, or a literal. -/
inductive RExpr
  | path (segs : List Ident)
  | call (f : RExpr) (arg : RExpr)
  | lit (n : Int)
deriving DecidableEq

/-- The call expression `unsafe \x7b modName :: fnName ( args ) \x7d` emitted by the
caller generation, the proxy bodies and the call rewriting. -/
structure CallDirect where
  modName : Ident
  fnName : Ident
  args : List Ident
deriving DecidableEq

/-- A proxy function generated by `SelfRefRewriter::ensure_proxy_fn`: its
name, its renamed signature and its body (an unsafe call through the
module-qualified extern symbol). -/
structure ProxyFn where
  name : Ident
  sig : Signature
  body : CallDirect
deriving DecidableEq

/-- From `src/def_interface.rs`: `SelfRefRewriter::proxy_name`. -/
def proxy_name (method_name : Ident) : Ident :=
  fmt "__self_proxy_\x7b\x7d" [method_name]

/-- From `src/def_interface.rs`: `SelfRefRewriter::is_self_method_path` — a
path expression of exactly two segments whose first segment is `Self`. -/
def is_self_method_path : RExpr → Option Ident
  | .path [a, b] => if a = "Self" then some b else none
  | _ => none

/-- Association-list lookup by key, modelling `HashMap::get`. -/
def alookup {β : Type} (k : Ident) : List (Ident × β) → Option β
  | [] => none
  | (k2, v) :: rest => if k2 = k then some v else alookup k rest

/-- The `method_signatures` map (`HashMap<String, Signature>`), as an
association list looked up by first component. -/
abbrev SigMap := List (Ident × Signature)

/-- The `generated_proxies` map of `SelfRefRewriter`, as an association
list. -/
abbrev ProxyMap := List (Ident × ProxyFn)

/-- HashMap insertion: replace the binding if the key exists, else append. -/
def sig_insert (k : Ident) (v : Signature) : SigMap → SigMap
  | [] => [(k, v)]
  | (k', v') :: rest => if k' = k then (k, v) :: rest else (k', v') :: sig_insert k v rest

/-- From `src/def_interface.rs`: `SelfRefRewriter::ensure_proxy_fn`. Returns
the proxy name (generating the proxy on first use) or `none` when the method
is unknown or its arguments cannot be extracted. -/
def ensure_proxy_fn (trait_name : Ident) (ns : Option String) (sigs : SigMap)
    (st : ProxyMap) (m : Ident) : Option Ident × ProxyMap :=
  if (alookup m st).isSome then (some (proxy_name m), st)
  else
    match alookup m sigs with
    | none => (none, st)
    | some sig =>
      match extract_caller_args sig with
      | .error _ => (none, st)
      | .ok args =>
        (some (proxy_name m),
          st ++ [(m,
            { name := proxy_name m
              sig := { sig with ident := proxy_name m }
              body := { modName := extern_fn_mod_name trait_name
                        fnName := extern_fn_name ns trait_name m
                        args := args } })])

/-- From `src/def_interface.rs`: the node action of
`SelfRefRewriter::visit_expr_mut` after the children have been visited —
replace a `Self::method` path by a reference to its proxy when one can be
ensured. -/
def apply_self_rule (trait_name : Ident) (ns : Option String) (sigs : SigMap)
    (e : RExpr) (st : ProxyMap) : RExpr × ProxyMap :=
  match is_self_method_path e with
  | none => (e, st)
  | some m =>
    match ensure_proxy_fn trait_name ns sigs st m with
    | (some p, st') => (.path [p], st')
    | (none, st') => (e, st')

/-- From `src/def_interface.rs`: `SelfRefRewriter::visit_expr_mut` — children
first, then the node itself. -/
def visit_expr (trait_name : Ident) (ns : Option String) (sigs : SigMap) :
    RExpr → ProxyMap → RExpr × ProxyMap
  | .path segs, st => apply_self_rule trait_name ns sigs (.path segs) st
  | .call f a, st =>
    apply_self_rule trait_name ns sigs
      (.call (visit_expr trait_name ns sigs f st).1
        (visit_expr trait_name ns sigs a (visit_expr trait_name ns sigs f st).2).1)
      (visit_expr trait_name ns sigs a (visit_expr trait_name ns sigs f st).2).2
  | .lit n, st => (.lit n, st)

/-- The statement-list traversal of `visit_block_mut`: visit each statement in
order, threading the `generated_proxies` state. -/
def rewrite_body_core (trait_name : Ident) (ns : Option String) (sigs : SigMap)
    (body : List RExpr) : List RExpr × ProxyMap :=
  body.foldl
    (fun acc e =>
      (acc.1 ++ [(visit_expr trait_name ns sigs e acc.2).1],
        (visit_expr trait_name ns sigs e acc.2).2))
    ([], [])

/-- From `src/def_interface.rs`: `rewrite_self_in_default_body` — visit the
block, then emit the generated proxy functions in front of the rewritten
statements. -/
def rewrite_self_in_default_body (default_body : List RExpr) (trait_name : Ident)
    (ns : Option String) (sigs : SigMap) : List ProxyFn × List RExpr :=
  ((rewrite_body_core trait_name ns sigs default_body).2.map Prod.snd,
    (rewrite_body_core trait_name ns sigs default_body).1)

/-- A trait method (`syn::TraitItemFn`): its signature and its optional
default body. -/
structure TraitItemFn where
  sig : Signature
  default : Option (List RExpr)
deriving DecidableEq

/-- A trait item: a method or anything else (ignored by the expansion). -/
inductive TraitItem
  | fn (f : TraitItemFn)
  | otherItem
deriving DecidableEq

/-- A trait declaration (`syn::ItemTrait`): name, generic parameters,
items. -/
structure ItemTrait where
  ident : Ident
  generics : List Ident
  items : List TraitItem
deriving DecidableEq

/-- From `src/args.rs`: the parsed options of `def_interface`. -/
structure DefInterfaceArgs where
  gen_caller : Bool
  ns : Option String
deriving DecidableEq

/-- From `src/args.rs`: the parsed options of `impl_interface`. -/
structure ImplInterfaceArgs where
  ns : Option String
deriving DecidableEq

/-- A forwarding function emitted under the `gen_caller` option: the method's
signature and its body, an unsafe call of the module-qualified extern
symbol on the method's own parameters. -/
structure CallerFn where
  sig : Signature
  body : CallDirect
deriving DecidableEq

/-- A weak-linked default definition emitted for a defaulted method: the
extern symbol it defines, its renamed signature, and the rewritten body
(proxies first, then the rewritten statements). -/
structure WeakDefaultFn where
  symbol : Ident
  sig : Signature
  proxies : List ProxyFn
  stmts : List RExpr
deriving DecidableEq

/-- What the `def_interface` expansion emits, beyond re-emitting the trait:
the extern declarations inside the symbol module, the weak defaults, the
forwarding callers, and the guard constants appended to the trait body. -/
structure DefOut where
  trait_ident : Ident
  modName : Ident
  externDecls : List Ident
  weakDefaults : List WeakDefaultFn
  callers : List CallerFn
  guards : List Ident
deriving DecidableEq

/-- The guard constants appended by both expansions: the alias guard always,
then the namespace guard when a namespace option is present. -/
def guard_names (trait_name : Ident) (ns : Option String) : List Ident :=
  alias_guard_name trait_name ::
    (match ns with
     | some n => [namespace_guard_name n]
     | none => [])

/-- The per-method accumulator of the `def_interface` loop. -/
structure DefAcc where
  externDecls : List Ident
  weakDefaults : List WeakDefaultFn
  callers : List CallerFn
deriving DecidableEq

/-- From `src/def_interface.rs`: the per-method loop of `def_interface`.
Per method: validate the signature; synthesize and declare the extern symbol;
reject a default body when the weak-default feature is off, otherwise emit a
weak definition with the rewritten body; emit a forwarding caller when
`gen_caller` is set. -/
def def_loop (trait_name : Ident) (macro_arg : DefInterfaceArgs) (weak : Bool)
    (sigs : SigMap) : List TraitItem → Except RustError DefAcc
  | [] => .ok ⟨[], [], []⟩
  | .otherItem :: rest => def_loop trait_name macro_arg weak sigs rest
  | .fn m :: rest =>
    match validate_fn_signature m.sig with
    | .error e => .error e
    | .ok _ =>
      let ename := extern_fn_name macro_arg.ns trait_name m.sig.ident
      if !weak && m.default.isSome then
        .error (weak_default_required_error m.sig.ident)
      else
        let weakPart : Except RustError (List WeakDefaultFn) :=
          if weak then
            match m.default with
            | some body =>
              let (proxies, stmts) :=
                rewrite_self_in_default_body body trait_name macro_arg.ns sigs
              match extract_caller_args m.sig with
              | .error e => .error e
              | .ok _ => .ok [⟨ename, { m.sig with ident := ename }, proxies, stmts⟩]
            | none => .ok []
          else .ok []
        match weakPart with
        | .error e => .error e
        | .ok wds =>
          let callerPart : Except RustError (List CallerFn) :=
            if macro_arg.gen_caller then
              match extract_caller_args m.sig with
              | .error e => .error e
              | .ok cargs =>
                .ok [⟨m.sig, ⟨extern_fn_mod_name trait_name, ename, cargs⟩⟩]
            else .ok []
          match callerPart with
          | .error e => .error e
          | .ok cfs =>
            match def_loop trait_name macro_arg weak sigs rest with
            | .error e => .error e
            | .ok acc =>
              .ok ⟨ename :: acc.externDecls, wds ++ acc.weakDefaults,
                cfs ++ acc.callers⟩

/-- From `src/def_interface.rs`: collect the `method_signatures` map. -/
def trait_method_signatures (items : List TraitItem) : SigMap :=
  items.foldl
    (fun acc it =>
      match it with
      | .fn m => sig_insert m.sig.ident m.sig acc
      | .otherItem => acc)
    []

/-- From `src/def_interface.rs`: the `def_interface` expansion. The `weak`
flag models the `weak_default` cargo feature. -/
def def_interface (ast : ItemTrait) (macro_arg : DefInterfaceArgs) (weak : Bool) :
    Except RustError DefOut :=
  if ast.generics ≠ [] then .error generic_not_allowed_error
  else
    match def_loop ast.ident macro_arg weak (trait_method_signatures ast.items) ast.items with
    | .error e => .error e
    | .ok acc =>
      .ok { trait_ident := ast.ident
            modName := extern_fn_mod_name ast.ident
            externDecls := acc.externDecls
            weakDefaults := acc.weakDefaults
            callers := acc.callers
            guards := guard_names ast.ident macro_arg.ns }

/-- A Rust type as far as `impl_interface` inspects it: a path type (with a
flag recording whether its single segment carries generic arguments) or
anything else. -/
inductive Ty
  | path (segs : List Ident) (hasArgs : Bool)
  | other
deriving DecidableEq

/-- `syn::Path::get_ident`: some identifier iff the path has exactly one
segment and that segment carries no arguments. -/
def Ty.get_ident : Ty → Option Ident
  | .path [x] false => some x
  | _ => none

/-- A method of an implementation (`syn::ImplItemFn`): its signature and the
denotation of its body on integer arguments. -/
structure ImplItemFn where
  sig : Signature
  body : List Int → Int

/-- An implementation item: a method or anything else (left untouched). -/
inductive ImplItem
  | fn (f : ImplItemFn)
  | otherItem

/-- An implementation declaration (`syn::ItemImpl`): its generic parameters
(never inspected by the expansion), the implemented trait path if any, the
target type, and the items. -/
structure ItemImpl where
  generics : List Ident
  trait_ : Option (List Ident)
  self_ty : Ty
  items : List ImplItem

/-- An extern function emitted inside a rewritten method: the exported symbol,
the parameters of its signature, the argument identifiers it forwards, and
the denotation of the original method body it forwards to. -/
structure ExternDef where
  symbol : Ident
  params : List Ident
  callArgs : List Ident
  body : List Int → Int

/-- What the `impl_interface` expansion emits: the target type name, one
extern definition per method, and the appended guard constants. -/
structure ImplOut where
  impl_name : Ident
  externDefs : List ExternDef
  guards : List Ident

/-- The observable result of running the `impl_interface` proc macro: emitted
output, a compile error, or a macro panic (`unwrap` on `None`). -/
inductive ImplResult
  | ok (out : ImplOut)
  | err (e : RustError)
  | panicked

/-- Whether an `ImplResult` is emitted output. -/
def ImplResult.isOk : ImplResult → Bool
  | .ok _ => true
  | _ => false

/-- From `src/impl_interface.rs`: the per-method loop of `impl_interface`:
synthesize the extern name, validate the signature, extract the forwarding
arguments, and emit the exported extern definition forwarding to the original
body. -/
def impl_loop (trait_name : Ident) (ns : Option String) :
    List ImplItem → Except RustError (List ExternDef)
  | [] => .ok []
  | .otherItem :: rest => impl_loop trait_name ns rest
  | .fn m :: rest =>
    let ename := extern_fn_name ns trait_name m.sig.ident
    match validate_fn_signature m.sig with
    | .error e => .error e
    | .ok _ =>
      match extract_caller_args m.sig with
      | .error e => .error e
      | .ok args =>
        match impl_loop trait_name ns rest with
        | .error e => .error e
        | .ok defs => .ok (⟨ename, typed_param_idents m.sig, args, m.body⟩ :: defs)

/-- From `src/impl_interface.rs`: the `impl_interface` expansion. The trait
name is the last segment of the trait path (`segments.last().unwrap()`); a
missing trait or a non-path target type is the "expect a trait
implementation" error; a path target that is not a single plain identifier
panics (`get_ident().unwrap()`). -/
def impl_interface (ast : ItemImpl) (macro_arg : ImplInterfaceArgs) : ImplResult :=
  match ast.trait_ with
  | none => .err ⟨"expect a trait implementation"⟩
  | some p =>
    match p.getLast? with
    | none => .panicked
    | some trait_name =>
      match ast.self_ty.get_ident, ast.self_ty with
      | _, Ty.other => .err ⟨"expect a trait implementation"⟩
      | none, Ty.path _ _ => .panicked
      | some impl_name, Ty.path _ _ =>
        match impl_loop trait_name macro_arg.ns ast.items with
        | .error e => .err e
        | .ok defs =>
          .ok { impl_name := impl_name
                externDefs := defs
                guards := guard_names trait_name macro_arg.ns }

/-- The rewritten call emitted by `call_interface`: the remaining path prefix
with the interface segment replaced by the module name, and the extern symbol
that is called. -/
structure RewrittenCall where
  modPath : List Ident
  fnName : Ident
deriving DecidableEq

/-- The observable result of running the `call_interface` proc macro. The
`err` constructor is what a returned compile error would be; the source
computes the "expect `Trait::func`" error on a short path but discards it
(its `compiler_error(..)` is not returned), so the code never produces it. -/
inductive CallResult
  | ok (rc : RewrittenCall)
  | err (e : RustError)
  | panicked
deriving DecidableEq

/-- From `src/lib.rs`: the `call_interface` expansion. The last two path
segments are popped as the function and the trait; the module name is pushed
onto the remaining prefix. On a path of fewer than two segments the
`compiler_error` result is discarded and the subsequent
`path.pop().unwrap()` panics. -/
def call_interface (ns : Option String) (path : List Ident) : CallResult :=
  match path.getLast? with
  | none => .panicked
  | some fn_name =>
    match path.dropLast.getLast? with
    | none => .panicked
    | some trait_name =>
      .ok { modPath := path.dropLast.dropLast ++ [extern_fn_mod_name trait_name]
            fnName := extern_fn_name ns trait_name fn_name }

/-- Bind a parameter list to argument values; unbound names default to 0. -/
def bind_params (params : List Ident) (vals : List Int) : Ident → Int :=
  fun x => (alookup x (params.zip vals)).getD 0

/-- Evaluate an emitted `unsafe \x7b mod :: f ( args ) \x7d` call under a symbol
environment and a variable binding. -/
def eval_call_direct (env : Ident → List Int → Int) (ρ : Ident → Int)
    (c : CallDirect) : Int :=
  env c.fnName (c.args.map ρ)

/-- Call a generated forwarding function on argument values: bind its
parameters, then evaluate its body. -/
def eval_caller_fn (env : Ident → List Int → Int) (c : CallerFn)
    (vals : List Int) : Int :=
  eval_call_direct env (bind_params (typed_param_idents c.sig) vals) c.body

/-- Evaluate a rewritten `call_interface` expression whose arguments evaluate
to the given values. -/
def eval_rewritten_call (env : Ident → List Int → Int) (rc : RewrittenCall)
    (vals : List Int) : Int :=
  env rc.fnName vals

/-- Evaluate an emitted extern definition on argument values: bind its
parameters, evaluate the forwarded arguments, run the original body. -/
def eval_extern_def (d : ExternDef) (vals : List Int) : Int :=
  d.body (d.callArgs.map (bind_params d.params vals))

/-- The link-time view of an implementation's emitted extern definitions:
resolve a symbol to the function it defines. -/
def link_env (defs : List ExternDef) : Ident → Option (List Int → Int) :=
  fun s => (defs.find? (fun d => d.symbol = s)).map eval_extern_def

/-- Run a rewritten call against the symbols an implementation provides. -/
def call_through (defs : List ExternDef) (rc : RewrittenCall)
    (vals : List Int) : Option Int :=
  (link_env defs rc.fnName).map (fun f => f vals)

/-- Whether a method name is a method of the interface whose caller arguments
can be extracted — exactly the condition under which `ensure_proxy_fn`
generates a proxy. -/
def valid_proxy_target (sigs : SigMap) (m : Ident) : Bool :=
  match alookup m sigs with
  | none => false
  | some sig =>
    match extract_caller_args sig with
    | .ok _ => true
    | .error _ => false

/-- The proxy function `ensure_proxy_fn` generates for a method. -/
def canonical_proxy (trait_name : Ident) (ns : Option String) (sigs : SigMap)
    (m : Ident) : ProxyFn :=
  let sig := (alookup m sigs).getD ⟨m, [], []⟩
  let args :=
    match extract_caller_args sig with
    | .ok a => a
    | .error _ => []
  { name := proxy_name m
    sig := { sig with ident := proxy_name m }
    body := { modName := extern_fn_mod_name trait_name
              fnName := extern_fn_name ns trait_name m
              args := args } }

/-- The pure description of the `Self::method` rewriting: every two-segment
path `Self::m` with `m` a proxy-able interface method becomes a reference to
`m`'s proxy, in every position; everything else is preserved. -/
def rewrite_spec (sigs : SigMap) : RExpr → RExpr
  | .path segs =>
    match segs with
    | [a, b] =>
      if a = "Self" ∧ valid_proxy_target sigs b = true then .path [proxy_name b]
      else .path segs
    | _ => .path segs
  | .call f a => .call (rewrite_spec sigs f) (rewrite_spec sigs a)
  | .lit n => .lit n

/-- The `Self::method` references of an expression, in visit order. -/
def self_refs : RExpr → List Ident
  | .path segs =>
    match segs with
    | [a, b] => if a = "Self" then [b] else []
    | _ => []
  | .call f a => self_refs f ++ self_refs a
  | .lit _ => []

/-- The invariant of the `generated_proxies` map: keys are distinct, every
key is a proxy-able method, and every entry is the proxy `ensure_proxy_fn`
generates for its key. -/
def ProxyInv (trait_name : Ident) (ns : Option String) (sigs : SigMap)
    (st : ProxyMap) : Prop :=
  (st.map Prod.fst).Nodup ∧
  ∀ p ∈ st, valid_proxy_target sigs p.1 = true ∧
    p.2 = canonical_proxy trait_name ns sigs p.1

/-- The methods of an implementation declaration, in order. -/
def impl_fn_items (items : List ImplItem) : List ImplItemFn :=
  items.filterMap (fun it =>
    match it with
    | .fn f => some f
    | .otherItem => none)

/-- The extern definition `impl_interface` emits for one method: the
synthesized symbol, the method's parameters, the forwarded argument
identifiers, and the original body it forwards to. -/
def mk_extern_def (t : Ident) (ns : Option String) (m : ImplItemFn) : ExternDef :=
  { symbol := extern_fn_name ns t m.sig.ident
    params := typed_param_idents m.sig
    callArgs :=
      match extract_caller_args m.sig with
      | .ok a => a
      | .error _ => []
    body := m.body }

end CrateInterface

namespace CrateInterface

theorem fmtAux_ph (rest : List Char) (a : String) (tl : List String) :
    fmtAux ('\x7b' :: '\x7d' :: rest) (a :: tl) = a.data ++ fmtAux rest tl := by
  simp [fmtAux]

theorem fmtAux_cons (c1 c2 : Char) (rest : List Char) (args : List String)
    (h : ¬(c1 = '\x7b' ∧ c2 = '\x7d')) :
    fmtAux (c1 :: c2 :: rest) args = c1 :: fmtAux (c2 :: rest) args := by
  simp [fmtAux, h]

/-- Literal template segments that contain no opening brace are copied
verbatim. -/
theorem fmtAux_no_lb (p : List Char) (hp : '\x7b' ∉ p) (rest : List Char)
    (args : List String) :
    fmtAux (p ++ rest) args = p ++ fmtAux rest args := by
  induction p with
  | nil => simp
  | cons c p ih =>
    have hc : c ≠ '\x7b' := fun h => hp (h ▸ List.mem_cons_self _ _)
    have hp' : '\x7b' ∉ p := fun h => hp (List.mem_cons_of_mem _ h)
    rw [List.cons_append]
    cases hpr : p ++ rest with
    | nil =>
      rcases List.append_eq_nil.mp hpr with ⟨hp0, hr0⟩
      subst hp0; subst hr0
      simp [fmtAux]
    | cons d ds =>
      rw [fmtAux_cons c d ds args (fun hand => hc hand.1), ← hpr, ih hp', List.cons_append]

theorem extern_fn_name_some (n i m : String) :
    extern_fn_name (some n) i m = "__" ++ n ++ "_" ++ i ++ "_" ++ m := by
  apply String.ext
  show fmtAux ("__".data ++ ('\x7b' :: '\x7d' :: ("_".data ++ ('\x7b' :: '\x7d' ::
      ("_".data ++ ('\x7b' :: '\x7d' :: [])))))) [n, i, m] = _
  rw [fmtAux_no_lb _ (by decide), fmtAux_ph, fmtAux_no_lb _ (by decide), fmtAux_ph,
    fmtAux_no_lb _ (by decide), fmtAux_ph]
  simp [String.data_append, fmtAux]

theorem extern_fn_name_none (i m : String) :
    extern_fn_name none i m = "__" ++ i ++ "_" ++ m := by
  apply String.ext
  show fmtAux ("__".data ++ ('\x7b' :: '\x7d' :: ("_".data ++ ('\x7b' :: '\x7d' :: []))))
      [i, m] = _
  rw [fmtAux_no_lb _ (by decide), fmtAux_ph, fmtAux_no_lb _ (by decide), fmtAux_ph]
  simp [String.data_append, fmtAux]

theorem extern_fn_mod_name_eq (i : String) :
    extern_fn_mod_name i = "__" ++ i ++ "_mod" := by
  apply String.ext
  show fmtAux ("__".data ++ ('\x7b' :: '\x7d' :: "_mod".data)) [i] = _
  rw [fmtAux_no_lb _ (by decide), fmtAux_ph, show fmtAux "_mod".data [] = "_mod".data by decide]
  simp [String.data_append, fmtAux]

theorem alias_guard_name_eq (i : String) :
    alias_guard_name i = "__MustNotAnAlias__" ++ i := by
  apply String.ext
  show fmtAux ("__MustNotAnAlias__".data ++ ('\x7b' :: '\x7d' :: [])) [i] = _
  rw [fmtAux_no_lb _ (by decide), fmtAux_ph]
  simp [String.data_append, fmtAux]

theorem namespace_guard_name_eq (n : String) :
    namespace_guard_name n = "__NamespaceGuard__" ++ n := by
  apply String.ext
  show fmtAux ("__NamespaceGuard__".data ++ ('\x7b' :: '\x7d' :: [])) [n] = _
  rw [fmtAux_no_lb _ (by decide), fmtAux_ph]
  simp [String.data_append, fmtAux]

end CrateInterface

/-- C1: for every optional-namespace, interface-name, method-name triple, the
synthesized extern symbol is "__namespace_interface_method" with a namespace
and "__interface_method" without one; the module grouping an interface's
extern declarations is "__interface_mod" (a function of the interface name
alone, independent of the namespace); the alias guard is
"__MustNotAnAlias__interface" and the namespace guard is
"__NamespaceGuard__namespace". -/
theorem claim_c1_naming_formulas (ns i m : String) :
    CrateInterface.extern_fn_name (some ns) i m = "__" ++ ns ++ "_" ++ i ++ "_" ++ m ∧
    CrateInterface.extern_fn_name none i m = "__" ++ i ++ "_" ++ m ∧
    CrateInterface.extern_fn_mod_name i = "__" ++ i ++ "_mod" ∧
    CrateInterface.alias_guard_name i = "__MustNotAnAlias__" ++ i ∧
    CrateInterface.namespace_guard_name ns = "__NamespaceGuard__" ++ ns :=
  ⟨CrateInterface.extern_fn_name_some ns i m, CrateInterface.extern_fn_name_none i m,
    CrateInterface.extern_fn_mod_name_eq i, CrateInterface.alias_guard_name_eq i,
    CrateInterface.namespace_guard_name_eq ns⟩

namespace CrateInterface

theorem string_append_cancel_left {a b c : String} (h : a ++ b = a ++ c) : b = c := by
  apply String.ext
  have hd := congrArg String.data h
  simp only [String.data_append] at hd
  exact List.append_cancel_left hd

theorem string_append_cancel_right {a b c : String} (h : a ++ c = b ++ c) : a = b := by
  apply String.ext
  have hd := congrArg String.data h
  simp only [String.data_append] at hd
  exact List.append_cancel_right hd

theorem alias_guard_name_inj {i1 i2 : Ident} (h : alias_guard_name i1 = alias_guard_name i2) :
    i1 = i2 := by
  rw [alias_guard_name_eq, alias_guard_name_eq] at h
  exact string_append_cancel_left h

theorem namespace_guard_name_inj {n1 n2 : String}
    (h : namespace_guard_name n1 = namespace_guard_name n2) : n1 = n2 := by
  rw [namespace_guard_name_eq, namespace_guard_name_eq] at h
  exact string_append_cancel_left h

theorem extern_fn_name_some_ne_none (n i m : String) :
    extern_fn_name (some n) i m ≠ extern_fn_name none i m := by
  intro h
  rw [extern_fn_name_some, extern_fn_name_none] at h
  have hd := congrArg String.data h
  simp only [String.data_append] at hd
  have hlen := congrArg List.length hd
  simp [List.length_append] at hlen
  omega

theorem extern_fn_name_some_inj_ns {n1 n2 i m : String}
    (h : extern_fn_name (some n1) i m = extern_fn_name (some n2) i m) : n1 = n2 := by
  rw [extern_fn_name_some, extern_fn_name_some] at h
  apply String.ext
  have hd := congrArg String.data h
  simp only [String.data_append, List.append_assoc] at hd
  exact List.append_cancel_right (List.append_cancel_left hd)

theorem extern_fn_name_inj_fn {ns : Option String} {i m1 m2 : String}
    (h : extern_fn_name ns i m1 = extern_fn_name ns i m2) : m1 = m2 := by
  apply String.ext
  cases ns with
  | none =>
    rw [extern_fn_name_none, extern_fn_name_none] at h
    have hd := congrArg String.data h
    simp only [String.data_append, List.append_assoc] at hd
    exact List.append_cancel_left (List.append_cancel_left (List.append_cancel_left hd))
  | some n =>
    rw [extern_fn_name_some, extern_fn_name_some] at h
    have hd := congrArg String.data h
    simp only [String.data_append, List.append_assoc] at hd
    exact List.append_cancel_left (List.append_cancel_left (List.append_cancel_left
      (List.append_cancel_left (List.append_cancel_left hd))))

end CrateInterface

/-- C6 (code behaviour at the failing input): on a path with fewer than two
segments the call-rewriting macro panics — the source computes the
"expect `Trait::func`" compile error but discards it (the `compiler_error`
call is not returned), so execution falls through to `path.pop().unwrap()`
on an exhausted path. The claimed behaviour, returning that build error, is
what the discarded value would have produced. -/
theorem claim_c6_short_path_panics :
    CrateInterface.call_interface none ["Foo"] = CrateInterface.CallResult.panicked ∧
    CrateInterface.CallResult.panicked ≠
      CrateInterface.CallResult.err ⟨"expect `Trait::func`"⟩ := by
  exact ⟨rfl, fun h => CrateInterface.CallResult.noConfusion h⟩

/-- C10: the implementation expansion uses only the last segment of the trait
path: two inputs whose trait paths share the last segment (and agree
elsewhere) expand identically, whatever module prefix the path carries. -/
theorem claim_c10_trait_path_last_segment (g1 g2 : List CrateInterface.Ident)
    (p1 p2 : List CrateInterface.Ident) (st : CrateInterface.Ty)
    (items : List CrateInterface.ImplItem) (marg : CrateInterface.ImplInterfaceArgs)
    (h : p1.getLast? = p2.getLast?) :
    CrateInterface.impl_interface ⟨g1, some p1, st, items⟩ marg =
    CrateInterface.impl_interface ⟨g2, some p2, st, items⟩ marg := by
  simp only [CrateInterface.impl_interface, h]

/-- C10 witness: `impl a::NamespaceIf for X` and `impl NamespaceIf for X`
expand identically. -/
theorem claim_c10_witness :
    CrateInterface.impl_interface
      ⟨[], some ["a", "NamespaceIf"], CrateInterface.Ty.path ["X"] false, []⟩
      ⟨some "A_NS"⟩ =
    CrateInterface.impl_interface
      ⟨[], some ["NamespaceIf"], CrateInterface.Ty.path ["X"] false, []⟩
      ⟨some "A_NS"⟩ :=
  claim_c10_trait_path_last_segment [] [] _ _ _ _ _ rfl

/-- C7 counterexample. The claim — every input that is not a trait
implementation for exactly one concrete target type, including a target that
is not a plain path type, yields the build error "expect a trait
implementation" — fails on the code in both directions it quantifies over:
(1) an implementation whose target is a bare type parameter (the expansion of
`impl<T> Tr for T \x7b fn foo() \x7b ... \x7d \x7d`; the target is not a concrete type)
expands successfully, because the expansion never inspects the generic
parameters; (2) `impl Tr for a::B`, whose target type is a path of two
segments (not a plain single-identifier path), makes the expansion panic
(`get_ident().unwrap()` on `None`) instead of returning the error. -/
theorem claim_c7_counterexample :
    (CrateInterface.impl_interface
      ⟨["T"], some ["Tr"], CrateInterface.Ty.path ["T"] false,
        [CrateInterface.ImplItem.fn ⟨⟨"foo", [], []⟩, fun _ => 0⟩]⟩
      ⟨none⟩).isOk = true ∧
    CrateInterface.impl_interface
      ⟨[], some ["Tr"], CrateInterface.Ty.path ["a", "B"] false, []⟩ ⟨none⟩ =
      CrateInterface.ImplResult.panicked := by
  exact ⟨rfl, rfl⟩

/-- C7 amended: the "expect a trait implementation" error is produced exactly
for an input with no trait at all, or whose target type is not a path type;
a path target type that is not a single plain identifier makes the expansion
panic rather than return the error; the concreteness of the target is not
checked. -/
theorem claim_c7_amended_shape_errors (g : List CrateInterface.Ident)
    (st : CrateInterface.Ty) (items : List CrateInterface.ImplItem)
    (marg : CrateInterface.ImplInterfaceArgs)
    (tpath : List CrateInterface.Ident) (htp : tpath ≠ []) :
    CrateInterface.impl_interface ⟨g, none, st, items⟩ marg =
      CrateInterface.ImplResult.err ⟨"expect a trait implementation"⟩ ∧
    CrateInterface.impl_interface ⟨g, some tpath, CrateInterface.Ty.other, items⟩ marg =
      CrateInterface.ImplResult.err ⟨"expect a trait implementation"⟩ ∧
    ∀ segs hasArgs,
      (CrateInterface.Ty.path segs hasArgs).get_ident = none →
      CrateInterface.impl_interface
        ⟨g, some tpath, CrateInterface.Ty.path segs hasArgs, items⟩ marg =
        CrateInterface.ImplResult.panicked := by
  obtain ⟨t0, hl⟩ : ∃ t0, tpath.getLast? = some t0 := by
    cases h : tpath.getLast? with
    | none => exact absurd (List.getLast?_eq_none_iff.mp h) htp
    | some t0 => exact ⟨t0, rfl⟩
  refine ⟨rfl, ?_, ?_⟩
  · simp only [CrateInterface.impl_interface, hl]
  · intro segs hasArgs hgi
    simp only [CrateInterface.impl_interface, hl, hgi]

/-- C7 amended, witness at concrete inputs. -/
theorem claim_c7_amended_witness :
    CrateInterface.impl_interface ⟨[], none, CrateInterface.Ty.other, []⟩ ⟨none⟩ =
      CrateInterface.ImplResult.err ⟨"expect a trait implementation"⟩ ∧
    CrateInterface.impl_interface ⟨[], some ["Tr"], CrateInterface.Ty.other, []⟩ ⟨none⟩ =
      CrateInterface.ImplResult.err ⟨"expect a trait implementation"⟩ ∧
    CrateInterface.impl_interface
      ⟨[], some ["Tr"], CrateInterface.Ty.path ["a", "B"] false, []⟩ ⟨none⟩ =
      CrateInterface.ImplResult.panicked := by
  obtain ⟨h1, h2, h3⟩ :=
    claim_c7_amended_shape_errors [] CrateInterface.Ty.other [] ⟨none⟩ ["Tr"]
      (by simp)
  exact ⟨h1, h2, h3 ["a", "B"] false rfl⟩

/-- C8: for one interface name, any two differing namespace configurations
give differing guard-name lists (as emitted by both expansions) and differing
extern symbol names for the same method; and distinct interface names give
distinct alias guards. A namespace mismatch or an interface rename between
definition and implementation therefore never produces matching names. -/
theorem claim_c8_namespace_isolation (i m : CrateInterface.Ident)
    (ns1 ns2 : Option String) (hne : ns1 ≠ ns2) :
    CrateInterface.guard_names i ns1 ≠ CrateInterface.guard_names i ns2 ∧
    CrateInterface.extern_fn_name ns1 i m ≠ CrateInterface.extern_fn_name ns2 i m ∧
    ∀ i2, i ≠ i2 → CrateInterface.alias_guard_name i ≠ CrateInterface.alias_guard_name i2 := by
  refine ⟨?_, ?_, fun i2 hi h => hi (CrateInterface.alias_guard_name_inj h)⟩
  · cases ns1 with
    | none =>
      cases ns2 with
      | none => exact absurd rfl hne
      | some n2 => intro h; simp [CrateInterface.guard_names] at h
    | some n1 =>
      cases ns2 with
      | none => intro h; simp [CrateInterface.guard_names] at h
      | some n2 =>
        intro h
        simp only [CrateInterface.guard_names, List.cons.injEq] at h
        exact hne (congrArg Option.some (CrateInterface.namespace_guard_name_inj h.2.1))
  · cases ns1 with
    | none =>
      cases ns2 with
      | none => exact absurd rfl hne
      | some n2 => exact fun h => CrateInterface.extern_fn_name_some_ne_none n2 i m h.symm
    | some n1 =>
      cases ns2 with
      | none => exact CrateInterface.extern_fn_name_some_ne_none n1 i m
      | some n2 =>
        intro h
        exact hne (congrArg Option.some (CrateInterface.extern_fn_name_some_inj_ns h))

/-- C8 witness: the namespaces `A_NS` and none, for interface `NamespaceIf`
and method `qux`. -/
theorem claim_c8_witness :
    CrateInterface.guard_names "NamespaceIf" (some "A_NS") ≠
      CrateInterface.guard_names "NamespaceIf" none ∧
    CrateInterface.extern_fn_name (some "A_NS") "NamespaceIf" "qux" ≠
      CrateInterface.extern_fn_name none "NamespaceIf" "qux" := by
  obtain ⟨h1, h2, _⟩ :=
    claim_c8_namespace_isolation "NamespaceIf" "qux" (some "A_NS") none (by simp)
  exact ⟨h1, h2⟩

namespace CrateInterface

theorem check_receivers_error_of_mem {inputs : List FnArg}
    (h : FnArg.receiver ∈ inputs) :
    check_receivers inputs = .error receiver_not_allowed_error := by
  induction inputs with
  | nil => cases h
  | cons a rest ih =>
    cases a with
    | receiver => rfl
    | typed p ty =>
      rcases List.mem_cons.mp h with heq | hmem
      · cases heq
      · exact ih hmem

theorem validate_error_of_bad (sig : Signature)
    (h : sig.generics ≠ [] ∨ FnArg.receiver ∈ sig.inputs) :
    ∃ e, validate_fn_signature sig = .error e := by
  by_cases hg : sig.generics = []
  · refine ⟨receiver_not_allowed_error, ?_⟩
    have hr : FnArg.receiver ∈ sig.inputs := h.resolve_left (by simp [hg])
    simp [validate_fn_signature, hg, check_receivers_error_of_mem hr]
  · exact ⟨generic_not_allowed_error, by simp [validate_fn_signature, hg]⟩

theorem def_loop_ok_validates {t : Ident} {marg : DefInterfaceArgs} {weak : Bool}
    {sigs : SigMap} :
    ∀ {items : List TraitItem} {acc : DefAcc},
      def_loop t marg weak sigs items = .ok acc →
      ∀ f, TraitItem.fn f ∈ items → validate_fn_signature f.sig = .ok () := by
  intro items
  induction items with
  | nil => intro acc h f hf; cases hf
  | cons it rest ih =>
    intro acc h f hf
    cases it with
    | otherItem =>
      rcases List.mem_cons.mp hf with heq | hmem
      · cases heq
      · exact ih h f hmem
    | fn m =>
      rw [def_loop] at h
      cases hv : validate_fn_signature m.sig with
      | error e => rw [hv] at h; exact Except.noConfusion h
      | ok u =>
        cases u
        rw [hv] at h
        rcases List.mem_cons.mp hf with heq | hmem
        · cases heq; exact hv
        · simp only at h
          split at h
          · exact Except.noConfusion h
          · split at h
            · exact Except.noConfusion h
            · split at h
              · exact Except.noConfusion h
              · split at h
                · exact Except.noConfusion h
                · exact ih ‹_› f hmem

theorem impl_loop_ok_validates {t : Ident} {ns : Option String} :
    ∀ {items : List ImplItem} {defs : List ExternDef},
      impl_loop t ns items = .ok defs →
      ∀ f, (∃ it ∈ items, it = ImplItem.fn f) → validate_fn_signature f.sig = .ok () := by
  intro items
  induction items with
  | nil => intro defs h f hf; rcases hf with ⟨it, hit, _⟩; cases hit
  | cons it rest ih =>
    intro defs h f hf
    rcases hf with ⟨it', hit', heq'⟩
    cases it with
    | otherItem =>
      rcases List.mem_cons.mp hit' with h1 | h1
      · rw [h1] at heq'; cases heq'
      · exact ih h f ⟨it', h1, heq'⟩
    | fn m =>
      rw [impl_loop] at h
      cases hv : validate_fn_signature m.sig with
      | error e => rw [hv] at h; exact Except.noConfusion h
      | ok u =>
        cases u
        rw [hv] at h
        rcases List.mem_cons.mp hit' with h1 | h1
        · rw [h1] at heq'; cases heq'; exact hv
        · simp only at h
          split at h
          · exact Except.noConfusion h
          · split at h
            · exact Except.noConfusion h
            · exact ih ‹_› f ⟨it', h1, heq'⟩

end CrateInterface

/-- C3: a signature with a non-empty generic-parameter list or a receiver
argument is rejected by `validate_fn_signature`, and since that validation is
run on every method by both the interface-definition expansion and the
interface-implementation expansion, any trait or well-shaped implementation
containing a method with such a signature makes the whole expansion return an
error instead of producing output. -/
theorem claim_c3_signature_validation (sig : CrateInterface.Signature)
    (hbad : sig.generics ≠ [] ∨ CrateInterface.FnArg.receiver ∈ sig.inputs) :
    (∃ e, CrateInterface.validate_fn_signature sig = .error e) ∧
    (∀ (ast : CrateInterface.ItemTrait) (marg : CrateInterface.DefInterfaceArgs)
        (weak : Bool) (f : CrateInterface.TraitItemFn),
      CrateInterface.TraitItem.fn f ∈ ast.items → f.sig = sig →
      ∃ e, CrateInterface.def_interface ast marg weak = .error e) ∧
    (∀ (g tpath : List CrateInterface.Ident) (iname : CrateInterface.Ident)
        (items : List CrateInterface.ImplItem) (marg : CrateInterface.ImplInterfaceArgs)
        (f : CrateInterface.ImplItemFn),
      tpath ≠ [] → (∃ it ∈ items, it = CrateInterface.ImplItem.fn f) → f.sig = sig →
      ∃ e, CrateInterface.impl_interface
        ⟨g, some tpath, CrateInterface.Ty.path [iname] false, items⟩ marg =
        CrateInterface.ImplResult.err e) := by
  obtain ⟨e0, he0⟩ := CrateInterface.validate_error_of_bad sig hbad
  refine ⟨⟨e0, he0⟩, ?_, ?_⟩
  · intro ast marg weak f hf hfs
    by_cases hg : ast.generics = []
    · rw [CrateInterface.def_interface, if_neg (by simp [hg])]
      cases hd : CrateInterface.def_loop ast.ident marg weak
          (CrateInterface.trait_method_signatures ast.items) ast.items with
      | error e => exact ⟨e, by simp [hd]⟩
      | ok acc =>
        have := CrateInterface.def_loop_ok_validates hd f hf
        rw [hfs, he0] at this
        exact Except.noConfusion this
    · exact ⟨CrateInterface.generic_not_allowed_error,
        by rw [CrateInterface.def_interface, if_pos (by simp [hg])]⟩
  · intro g tpath iname items marg f htp hf hfs
    obtain ⟨t0, hl⟩ : ∃ t0, tpath.getLast? = some t0 := by
      cases h : tpath.getLast? with
      | none => exact absurd (List.getLast?_eq_none_iff.mp h) htp
      | some t0 => exact ⟨t0, rfl⟩
    rw [CrateInterface.impl_interface]
    simp only [hl]
    cases hd : CrateInterface.impl_loop t0 marg.ns items with
    | error e => exact ⟨e, by simp [CrateInterface.Ty.get_ident, hd]⟩
    | ok defs =>
      have := CrateInterface.impl_loop_ok_validates hd f hf
      rw [hfs, he0] at this
      exact Except.noConfusion this

/-- C3 witness: the signature `fn m(&self)` — a receiver — is rejected by the
validator and fails both expansions at concrete inputs. -/
theorem claim_c3_witness :
    (∃ e, CrateInterface.validate_fn_signature
      ⟨"m", [], [CrateInterface.FnArg.receiver]⟩ = .error e) ∧
    (∃ e, CrateInterface.def_interface
      ⟨"Tr", [],
        [CrateInterface.TraitItem.fn ⟨⟨"m", [], [CrateInterface.FnArg.receiver]⟩, none⟩]⟩
      ⟨false, none⟩ false = .error e) ∧
    (∃ e, CrateInterface.impl_interface
      ⟨[], some ["Tr"], CrateInterface.Ty.path ["S"] false,
        [CrateInterface.ImplItem.fn ⟨⟨"m", [], [CrateInterface.FnArg.receiver]⟩, fun _ => 0⟩]⟩
      ⟨none⟩ = CrateInterface.ImplResult.err e) := by
  obtain ⟨h1, h2, h3⟩ := claim_c3_signature_validation
    ⟨"m", [], [CrateInterface.FnArg.receiver]⟩ (Or.inr (List.mem_singleton.mpr rfl))
  refine ⟨h1, h2 _ ⟨false, none⟩ false _ (List.mem_singleton.mpr rfl) rfl, ?_⟩
  exact h3 [] ["Tr"] "S" _ ⟨none⟩ _ (by simp)
    ⟨_, List.mem_singleton.mpr rfl, rfl⟩ rfl

namespace CrateInterface

set_option maxRecDepth 10000 in
theorem weak_default_msg_eq (n : Ident) :
    (weak_default_required_error n).msg =
      "default implementation of method `" ++ n ++ "` will not work as expected and therefore is not allowed without the `weak_default` feature. To use it, you need to enable the `weak_default` feature and use the nightly Rust toolchain, with #![feature(linkage)] at the top of your crate root." := by
  show fmt weak_default_msg_template [n] = _
  apply String.ext
  show fmtAux ("default implementation of method `".data ++ ('\x7b' :: '\x7d' ::
      "` will not work as expected and therefore is not allowed without the `weak_default` feature. To use it, you need to enable the `weak_default` feature and use the nightly Rust toolchain, with #![feature(linkage)] at the top of your crate root.".data)) [n] = _
  rw [fmtAux_no_lb _ (by decide), fmtAux_ph,
    show fmtAux "` will not work as expected and therefore is not allowed without the `weak_default` feature. To use it, you need to enable the `weak_default` feature and use the nightly Rust toolchain, with #![feature(linkage)] at the top of your crate root.".data []
      = "` will not work as expected and therefore is not allowed without the `weak_default` feature. To use it, you need to enable the `weak_default` feature and use the nightly Rust toolchain, with #![feature(linkage)] at the top of your crate root.".data from by decide]
  simp [String.data_append]

theorem def_loop_weak_off_error {t : Ident} {marg : DefInterfaceArgs} {sigs : SigMap} :
    ∀ {items : List TraitItem},
      (∀ f, TraitItem.fn f ∈ items → validate_fn_signature f.sig = .ok ()) →
      (∀ f, TraitItem.fn f ∈ items →
        extract_caller_args f.sig = .ok (typed_param_idents f.sig)) →
      ∀ f0, TraitItem.fn f0 ∈ items → f0.default.isSome = true →
      ∃ g, (TraitItem.fn g ∈ items ∧ g.default.isSome = true) ∧
        def_loop t marg false sigs items =
          .error (weak_default_required_error g.sig.ident) := by
  intro items
  induction items with
  | nil => intro _ _ f0 h0 _; cases h0
  | cons it rest ih =>
    intro hall hx f0 h0 hd0
    cases it with
    | otherItem =>
      have h0' : TraitItem.fn f0 ∈ rest := by
        rcases List.mem_cons.mp h0 with heq | hmem
        · cases heq
        · exact hmem
      obtain ⟨g, ⟨hg1, hg2⟩, hg3⟩ :=
        ih (fun f hf => hall f (List.mem_cons_of_mem _ hf))
          (fun f hf => hx f (List.mem_cons_of_mem _ hf)) f0 h0' hd0
      exact ⟨g, ⟨List.mem_cons_of_mem _ hg1, hg2⟩, hg3⟩
    | fn m =>
      have hvm := hall m (List.mem_cons_self _ _)
      cases hdm : m.default.isSome with
      | true =>
        refine ⟨m, ⟨List.mem_cons_self _ _, hdm⟩, ?_⟩
        rw [def_loop, hvm]
        simp [hdm]
      | false =>
        have h0' : TraitItem.fn f0 ∈ rest := by
          rcases List.mem_cons.mp h0 with heq | hmem
          · injection heq with heq'
            rw [heq'] at hd0
            rw [hd0] at hdm
            cases hdm
          · exact hmem
        obtain ⟨g, ⟨hg1, hg2⟩, hg3⟩ :=
          ih (fun f hf => hall f (List.mem_cons_of_mem _ hf))
            (fun f hf => hx f (List.mem_cons_of_mem _ hf)) f0 h0' hd0
        refine ⟨g, ⟨List.mem_cons_of_mem _ hg1, hg2⟩, ?_⟩
        rw [def_loop, hvm]
        have hxm := hx m (List.mem_cons_self _ _)
        by_cases hgc : marg.gen_caller = true <;>
          simp [hdm, hg3, hxm, hgc]

end CrateInterface

/-- C5: with the weak-default overlay disabled, the definition expansion of a
trait containing a method with a default body fails with the
`weak_default_required_error` of such a method, producing no output, and the
error message names that method (its name is interpolated into the
message). The other methods are assumed well-formed so that no earlier
validation error fires first. -/
theorem claim_c5_default_requires_weak (ast : CrateInterface.ItemTrait)
    (marg : CrateInterface.DefInterfaceArgs)
    (hg : ast.generics = [])
    (hall : ∀ f, CrateInterface.TraitItem.fn f ∈ ast.items →
      CrateInterface.validate_fn_signature f.sig = .ok ())
    (hx : ∀ f, CrateInterface.TraitItem.fn f ∈ ast.items →
      CrateInterface.extract_caller_args f.sig =
        .ok (CrateInterface.typed_param_idents f.sig))
    (f0 : CrateInterface.TraitItemFn) (h0 : CrateInterface.TraitItem.fn f0 ∈ ast.items)
    (hd0 : f0.default.isSome = true) :
    ∃ g, (CrateInterface.TraitItem.fn g ∈ ast.items ∧ g.default.isSome = true) ∧
      CrateInterface.def_interface ast marg false =
        .error (CrateInterface.weak_default_required_error g.sig.ident) ∧
      (CrateInterface.weak_default_required_error g.sig.ident).msg =
        "default implementation of method `" ++ g.sig.ident ++ "` will not work as expected and therefore is not allowed without the `weak_default` feature. To use it, you need to enable the `weak_default` feature and use the nightly Rust toolchain, with #![feature(linkage)] at the top of your crate root." := by
  obtain ⟨g, hgm, hge⟩ :=
    @CrateInterface.def_loop_weak_off_error ast.ident marg
      (CrateInterface.trait_method_signatures ast.items) ast.items hall hx f0 h0 hd0
  refine ⟨g, hgm, ?_, CrateInterface.weak_default_msg_eq g.sig.ident⟩
  rw [CrateInterface.def_interface, if_neg (by simp [hg])]
  simp [hge]

/-- C5 witness: a trait with one defaulted method, expanded with the overlay
disabled. -/
theorem claim_c5_witness :
    ∃ g, (CrateInterface.TraitItem.fn g ∈
        [CrateInterface.TraitItem.fn
          ⟨⟨"default_method", [], []⟩, some [CrateInterface.RExpr.lit 42]⟩] ∧
        g.default.isSome = true) ∧
      CrateInterface.def_interface
        ⟨"DefaultMethodIf", [],
          [CrateInterface.TraitItem.fn
            ⟨⟨"default_method", [], []⟩, some [CrateInterface.RExpr.lit 42]⟩]⟩
        ⟨false, none⟩ false =
        .error (CrateInterface.weak_default_required_error g.sig.ident) ∧
      (CrateInterface.weak_default_required_error g.sig.ident).msg =
        "default implementation of method `" ++ g.sig.ident ++ "` will not work as expected and therefore is not allowed without the `weak_default` feature. To use it, you need to enable the `weak_default` feature and use the nightly Rust toolchain, with #![feature(linkage)] at the top of your crate root." := by
  apply claim_c5_default_requires_weak
    ⟨"DefaultMethodIf", [],
      [CrateInterface.TraitItem.fn
        ⟨⟨"default_method", [], []⟩, some [CrateInterface.RExpr.lit 42]⟩]⟩
    ⟨false, none⟩ rfl
    (by
      intro f hf
      simp only [List.mem_singleton] at hf
      injection hf with hf'
      rw [hf']
      rfl)
    (by
      intro f hf
      simp only [List.mem_singleton] at hf
      injection hf with hf'
      rw [hf']
      rfl)
    ⟨⟨"default_method", [], []⟩, some [CrateInterface.RExpr.lit 42]⟩
    (List.mem_singleton.mpr rfl)
    rfl

namespace CrateInterface

theorem map_bind_params :
    ∀ (ps : List Ident) (vals : List Int), ps.Nodup → vals.length = ps.length →
      ps.map (bind_params ps vals) = vals := by
  intro ps
  induction ps with
  | nil =>
    intro vals _ hlen
    cases vals with
    | nil => rfl
    | cons v vs => simp at hlen
  | cons p ps ih =>
    intro vals hnd hlen
    cases vals with
    | nil => simp at hlen
    | cons v vs =>
      have hlen' : vs.length = ps.length := by
        simpa using hlen
      simp only [List.map_cons, List.cons.injEq]
      constructor
      · simp [bind_params, alookup]
      · have hcongr : ∀ x ∈ ps, bind_params (p :: ps) (v :: vs) x = bind_params ps vs x := by
          intro x hx
          have hpx : p ≠ x := fun h => (List.nodup_cons.mp hnd).1 (h ▸ hx)
          simp only [bind_params, List.zip_cons_cons, alookup, if_neg hpx]
          rfl
        rw [List.map_congr_left hcongr, ih vs (List.nodup_cons.mp hnd).2 hlen']

theorem def_loop_caller_mem {t : Ident} {marg : DefInterfaceArgs} {weak : Bool}
    {sigs : SigMap} :
    ∀ {items : List TraitItem} {acc : DefAcc},
      def_loop t marg weak sigs items = .ok acc →
      marg.gen_caller = true →
      ∀ f, TraitItem.fn f ∈ items →
      ∀ cargs, extract_caller_args f.sig = .ok cargs →
      (⟨f.sig, ⟨extern_fn_mod_name t, extern_fn_name marg.ns t f.sig.ident, cargs⟩⟩ :
        CallerFn) ∈ acc.callers := by
  intro items
  induction items with
  | nil => intro acc h hgc f hf; cases hf
  | cons it rest ih =>
    intro acc h hgc f hf cargs hcx
    cases it with
    | otherItem =>
      rcases List.mem_cons.mp hf with heq | hmem
      · cases heq
      · exact ih h hgc f hmem cargs hcx
    | fn m =>
      rw [def_loop] at h
      cases hv : validate_fn_signature m.sig with
      | error e => rw [hv] at h; exact Except.noConfusion h
      | ok u =>
        cases u
        rw [hv] at h
        simp only [hgc, eq_self_iff_true, if_true] at h
        split at h
        · exact Except.noConfusion h
        · split at h
          · exact Except.noConfusion h
          · cases hcx2 : extract_caller_args m.sig with
            | error e2 =>
              rw [hcx2] at h
              simp only at h
              exact Except.noConfusion h
            | ok cargs2 =>
              rw [hcx2] at h
              simp only at h
              split at h
              · exact Except.noConfusion h
              · rename_i acc2 hrest
                injection h with h'
                rw [← h']
                rcases List.mem_cons.mp hf with heq | hmem
                · injection heq with heq'
                  subst heq'
                  rw [hcx] at hcx2
                  injection hcx2 with hceq
                  rw [hceq]
                  exact List.mem_append_left _ (List.mem_singleton.mpr rfl)
                · exact List.mem_append_right _ (ih hrest hgc f hmem cargs hcx)

end CrateInterface

/-- C9: when `gen_caller` is set and the definition expansion succeeds, every
method has a generated forwarding function whose body is the same unsafe call
— same module-qualified extern symbol, the method's own parameters as
arguments in order — that the explicit `call_interface` rewriting emits, and
calling the forwarding function on any argument values evaluates to exactly
what the rewritten call evaluates to under any symbol environment. -/
theorem claim_c9_caller_equivalence (ast : CrateInterface.ItemTrait)
    (marg : CrateInterface.DefInterfaceArgs) (weak : Bool)
    (out : CrateInterface.DefOut)
    (hgc : marg.gen_caller = true)
    (hok : CrateInterface.def_interface ast marg weak = .ok out)
    (f : CrateInterface.TraitItemFn) (hf : CrateInterface.TraitItem.fn f ∈ ast.items)
    (hargs : CrateInterface.extract_caller_args f.sig =
      .ok (CrateInterface.typed_param_idents f.sig))
    (hnd : (CrateInterface.typed_param_idents f.sig).Nodup)
    (env : CrateInterface.Ident → List Int → Int) (vals : List Int)
    (hlen : vals.length = (CrateInterface.typed_param_idents f.sig).length) :
    ∃ c ∈ out.callers, c.sig = f.sig ∧
      ∃ rc, CrateInterface.call_interface marg.ns [ast.ident, f.sig.ident] = .ok rc ∧
        rc.modPath = [c.body.modName] ∧ rc.fnName = c.body.fnName ∧
        CrateInterface.eval_caller_fn env c vals =
          CrateInterface.eval_rewritten_call env rc vals := by
  rw [CrateInterface.def_interface] at hok
  by_cases hg : ast.generics = []
  · rw [if_neg (by simp [hg])] at hok
    cases hdl : CrateInterface.def_loop ast.ident marg weak
        (CrateInterface.trait_method_signatures ast.items) ast.items with
    | error e => rw [hdl] at hok; exact Except.noConfusion hok
    | ok acc =>
      rw [hdl] at hok
      simp only at hok
      injection hok with h'
      have hc := CrateInterface.def_loop_caller_mem hdl hgc f hf _ hargs
      refine ⟨⟨f.sig, ⟨CrateInterface.extern_fn_mod_name ast.ident,
        CrateInterface.extern_fn_name marg.ns ast.ident f.sig.ident,
        CrateInterface.typed_param_idents f.sig⟩⟩, ?_, rfl, ?_⟩
      · rw [← h']
        exact hc
      · refine ⟨⟨[CrateInterface.extern_fn_mod_name ast.ident],
          CrateInterface.extern_fn_name marg.ns ast.ident f.sig.ident⟩, ?_, rfl, rfl, ?_⟩
        · rfl
        · simp only [CrateInterface.eval_caller_fn, CrateInterface.eval_call_direct,
            CrateInterface.eval_rewritten_call]
          rw [CrateInterface.map_bind_params _ _ hnd hlen]
  · rw [if_pos (by simp [hg])] at hok
    exact Except.noConfusion hok

/-- C9 witness: the `WithCallerIf` interface with `gen_caller`, method
`baz(x: i32)`, called on the value 7. -/
theorem claim_c9_witness :
    ∃ c ∈ (CrateInterface.DefOut.mk "WithCallerIf" "__WithCallerIf_mod"
        ["__WithCallerIf_baz"] []
        [⟨⟨"baz", [], [CrateInterface.FnArg.typed (CrateInterface.Pat.ident "x") "i32"]⟩,
          ⟨"__WithCallerIf_mod", "__WithCallerIf_baz", ["x"]⟩⟩]
        ["__MustNotAnAlias__WithCallerIf"]).callers,
      c.sig = (⟨"baz", [],
        [CrateInterface.FnArg.typed (CrateInterface.Pat.ident "x") "i32"]⟩ :
          CrateInterface.Signature) ∧
      ∃ rc, CrateInterface.call_interface none ["WithCallerIf", "baz"] = .ok rc ∧
        rc.modPath = [c.body.modName] ∧ rc.fnName = c.body.fnName ∧
        CrateInterface.eval_caller_fn (fun _ vs => vs.headD 0 + 1) c [7] =
          CrateInterface.eval_rewritten_call (fun _ vs => vs.headD 0 + 1) rc [7] := by
  exact claim_c9_caller_equivalence
    ⟨"WithCallerIf", [],
      [CrateInterface.TraitItem.fn
        ⟨⟨"baz", [], [CrateInterface.FnArg.typed (CrateInterface.Pat.ident "x") "i32"]⟩,
          none⟩]⟩
    ⟨true, none⟩ false _ rfl rfl
    ⟨⟨"baz", [], [CrateInterface.FnArg.typed (CrateInterface.Pat.ident "x") "i32"]⟩, none⟩
    (List.mem_singleton.mpr rfl) rfl (by decide) _ [7] rfl

namespace CrateInterface

theorem impl_loop_ok_of_valid {t : Ident} {ns : Option String} :
    ∀ {items : List ImplItem},
      (∀ f ∈ impl_fn_items items,
        validate_fn_signature f.sig = .ok () ∧
        extract_caller_args f.sig = .ok (typed_param_idents f.sig)) →
      impl_loop t ns items = .ok ((impl_fn_items items).map (mk_extern_def t ns)) := by
  intro items
  induction items with
  | nil => intro _; rfl
  | cons it rest ih =>
    intro hvalid
    cases it with
    | otherItem =>
      have : impl_fn_items (ImplItem.otherItem :: rest) = impl_fn_items rest := by
        simp [impl_fn_items]
      rw [impl_loop, this]
      exact ih (fun f hf => hvalid f (this ▸ hf))
    | fn m =>
      have hmem : m ∈ impl_fn_items (ImplItem.fn m :: rest) := by
        simp [impl_fn_items]
      obtain ⟨hv, hx⟩ := hvalid m hmem
      have hitems : impl_fn_items (ImplItem.fn m :: rest) = m :: impl_fn_items rest := by
        simp [impl_fn_items]
      rw [impl_loop, hv]
      simp only
      rw [hx]
      simp only
      rw [ih (fun f hf => hvalid f (by rw [hitems]; exact List.mem_cons_of_mem _ hf))]
      simp only [hitems, List.map_cons, mk_extern_def, hx]

theorem find?_map_unique {α β : Type} (l : List α) (g : α → β) (p : β → Bool) (a : α)
    (ha : a ∈ l) (hpa : p (g a) = true) (huniq : ∀ b ∈ l, p (g b) = true → b = a) :
    (l.map g).find? p = some (g a) := by
  induction l with
  | nil => cases ha
  | cons x xs ih =>
    by_cases hx : p (g x) = true
    · have hxa : x = a := huniq x (List.mem_cons_self _ _) hx
      subst hxa
      simp [List.find?_cons, hx]
    · have hax : a ∈ xs := by
        rcases List.mem_cons.mp ha with heq | hmem
        · subst heq; exact absurd hpa hx
        · exact hmem
      have hx2 : p (g x) = false := by simpa using hx
      simp only [List.map_cons, List.find?_cons, hx2]
      exact ih hax (fun b hb hpb => huniq b (List.mem_cons_of_mem _ hb) hpb)

theorem mem_impl_fn_items {m : ImplItemFn} {items : List ImplItem}
    (h : ImplItem.fn m ∈ items) : m ∈ impl_fn_items items := by
  apply List.mem_filterMap.mpr
  exact ⟨ImplItem.fn m, h, rfl⟩

end CrateInterface

/-- C2: for a fully implemented interface (no default needed), a call made
through the rewritten call form returns exactly what the implementation's
method body computes: the implementation expansion emits under the
synthesized symbol an extern function forwarding to the method body, the
call rewriting targets the same symbol, and resolving the call against the
implementation's emitted symbols evaluates to the body's result. -/
theorem claim_c2_round_trip (g tpath : List CrateInterface.Ident)
    (tname iname : CrateInterface.Ident) (items : List CrateInterface.ImplItem)
    (ns : Option String) (m : CrateInterface.ImplItemFn)
    (htp : tpath.getLast? = some tname)
    (hm : CrateInterface.ImplItem.fn m ∈ items)
    (hnodup : ((CrateInterface.impl_fn_items items).map (fun f => f.sig.ident)).Nodup)
    (hvalid : ∀ f ∈ CrateInterface.impl_fn_items items,
      CrateInterface.validate_fn_signature f.sig = .ok () ∧
      CrateInterface.extract_caller_args f.sig =
        .ok (CrateInterface.typed_param_idents f.sig))
    (hnd : (CrateInterface.typed_param_idents m.sig).Nodup)
    (vals : List Int)
    (hlen : vals.length = (CrateInterface.typed_param_idents m.sig).length) :
    ∃ out, CrateInterface.impl_interface
        ⟨g, some tpath, CrateInterface.Ty.path [iname] false, items⟩ ⟨ns⟩ =
        CrateInterface.ImplResult.ok out ∧
      ∀ rc, CrateInterface.call_interface ns [tname, m.sig.ident] = .ok rc →
        CrateInterface.call_through out.externDefs rc vals = some (m.body vals) := by
  have hloop := @CrateInterface.impl_loop_ok_of_valid tname ns items hvalid
  refine ⟨⟨iname, (CrateInterface.impl_fn_items items).map
    (CrateInterface.mk_extern_def tname ns), CrateInterface.guard_names tname ns⟩, ?_, ?_⟩
  · simp [CrateInterface.impl_interface, htp, hloop, CrateInterface.Ty.get_ident]
  · intro rc hrc
    have h0 : CrateInterface.call_interface ns [tname, m.sig.ident] =
        .ok ⟨[CrateInterface.extern_fn_mod_name tname],
          CrateInterface.extern_fn_name ns tname m.sig.ident⟩ := rfl
    rw [h0] at hrc
    injection hrc with hrc'
    rw [← hrc']
    have hfind := CrateInterface.find?_map_unique (CrateInterface.impl_fn_items items)
      (CrateInterface.mk_extern_def tname ns)
      (fun d => decide (d.symbol = CrateInterface.extern_fn_name ns tname m.sig.ident))
      m (CrateInterface.mem_impl_fn_items hm)
      (by simp [CrateInterface.mk_extern_def])
      (by
        intro b hb hpb
        simp only [CrateInterface.mk_extern_def, decide_eq_true_eq] at hpb
        have hbname := CrateInterface.extern_fn_name_inj_fn hpb
        exact List.inj_on_of_nodup_map hnodup hb (CrateInterface.mem_impl_fn_items hm)
          hbname)
    simp only [CrateInterface.call_through, CrateInterface.link_env]
    rw [hfind]
    simp only [Option.map_some']
    congr 1
    simp only [CrateInterface.eval_extern_def, CrateInterface.mk_extern_def]
    rw [(hvalid m (CrateInterface.mem_impl_fn_items hm)).2]
    rw [CrateInterface.map_bind_params _ _ hnd hlen]

/-- C2 witness: `SimpleIf` with `get_value() -> 12345` and
`compute(a, b) -> a * b + 10`, fully implemented; calling `compute` through
the rewritten call form on `(10, 5)` yields `60`. -/
theorem claim_c2_witness :
    ∃ out, CrateInterface.impl_interface
        ⟨[], some ["SimpleIf"], CrateInterface.Ty.path ["SimpleIfImpl"] false,
          [CrateInterface.ImplItem.fn ⟨⟨"get_value", [], []⟩, fun _ => 12345⟩,
            CrateInterface.ImplItem.fn
              ⟨⟨"compute", [],
                [CrateInterface.FnArg.typed (CrateInterface.Pat.ident "a") "u32",
                  CrateInterface.FnArg.typed (CrateInterface.Pat.ident "b") "u32"]⟩,
                fun vs => vs.getD 0 0 * vs.getD 1 0 + 10⟩]⟩ ⟨none⟩ =
        CrateInterface.ImplResult.ok out ∧
      ∀ rc, CrateInterface.call_interface none ["SimpleIf", "compute"] = .ok rc →
        CrateInterface.call_through out.externDefs rc [10, 5] = some 60 := by
  obtain ⟨out, h1, h2⟩ := claim_c2_round_trip [] ["SimpleIf"] "SimpleIf" "SimpleIfImpl"
    [CrateInterface.ImplItem.fn ⟨⟨"get_value", [], []⟩, fun _ => 12345⟩,
      CrateInterface.ImplItem.fn
        ⟨⟨"compute", [],
          [CrateInterface.FnArg.typed (CrateInterface.Pat.ident "a") "u32",
            CrateInterface.FnArg.typed (CrateInterface.Pat.ident "b") "u32"]⟩,
          fun vs => vs.getD 0 0 * vs.getD 1 0 + 10⟩]
    none
    ⟨⟨"compute", [],
      [CrateInterface.FnArg.typed (CrateInterface.Pat.ident "a") "u32",
        CrateInterface.FnArg.typed (CrateInterface.Pat.ident "b") "u32"]⟩,
      fun vs => vs.getD 0 0 * vs.getD 1 0 + 10⟩
    rfl
    (List.mem_cons_of_mem _ (List.mem_singleton.mpr rfl))
    (by decide)
    (by
      intro f hf
      simp only [CrateInterface.impl_fn_items, List.filterMap_cons, List.filterMap_nil,
        List.mem_cons, List.not_mem_nil, or_false] at hf
      rcases hf with hf | hf
      · subst hf; exact ⟨rfl, rfl⟩
      · subst hf; exact ⟨rfl, rfl⟩)
    (by decide)
    [10, 5] rfl
  refine ⟨out, h1, ?_⟩
  intro rc hrc
  exact (h2 rc hrc).trans (by decide)

namespace CrateInterface

theorem alookup_isSome_iff {β : Type} :
    ∀ (st : List (Ident × β)) (k : Ident),
      (alookup k st).isSome = true ↔ k ∈ st.map Prod.fst := by
  intro st k
  induction st with
  | nil => simp [alookup]
  | cons p rest ih =>
    obtain ⟨k2, v⟩ := p
    by_cases h : k2 = k
    · subst h
      simp [alookup]
    · simp [alookup, h, ih, Ne.symm h]

theorem ensure_proxy_fn_spec (tn : Ident) (ns : Option String) (sigs : SigMap)
    (st : ProxyMap) (m : Ident) (hInv : ProxyInv tn ns sigs st) :
    (ensure_proxy_fn tn ns sigs st m).1 =
      (if valid_proxy_target sigs m = true then some (proxy_name m) else none) ∧
    ProxyInv tn ns sigs (ensure_proxy_fn tn ns sigs st m).2 ∧
    ∀ k, k ∈ (ensure_proxy_fn tn ns sigs st m).2.map Prod.fst ↔
      k ∈ st.map Prod.fst ∨ (valid_proxy_target sigs m = true ∧ k = m) := by
  by_cases h1 : (alookup m st).isSome = true
  · have hmem : m ∈ st.map Prod.fst := (alookup_isSome_iff st m).mp h1
    have hval : valid_proxy_target sigs m = true := by
      rcases List.mem_map.mp hmem with ⟨p, hp, hpk⟩
      exact hpk ▸ (hInv.2 p hp).1
    refine ⟨?_, ?_, ?_⟩
    · simp [ensure_proxy_fn, h1, hval]
    · simp only [ensure_proxy_fn, h1, if_true]
      exact hInv
    · intro k
      simp only [ensure_proxy_fn, h1, if_true, hval, true_and]
      constructor
      · exact fun h => Or.inl h
      · rintro (h | h)
        · exact h
        · exact h ▸ hmem
  · have h1' : m ∉ st.map Prod.fst := fun hmem =>
      h1 ((alookup_isSome_iff st m).mpr hmem)
    have h1f : ((alookup m st).isSome = true) = False := by simp [h1]
    cases h2 : alookup m sigs with
    | none =>
      have hval : valid_proxy_target sigs m = false := by
        simp [valid_proxy_target, h2]
      refine ⟨?_, ?_, ?_⟩
      · simp [ensure_proxy_fn, h1f, h2, hval]
      · simp only [ensure_proxy_fn, h1f, if_false, h2]
        exact hInv
      · intro k
        simp [ensure_proxy_fn, h1f, h2, hval]
    | some sig =>
      cases h3 : extract_caller_args sig with
      | error e =>
        have hval : valid_proxy_target sigs m = false := by
          simp [valid_proxy_target, h2, h3]
        refine ⟨?_, ?_, ?_⟩
        · simp [ensure_proxy_fn, h1f, h2, h3, hval]
        · simp only [ensure_proxy_fn, h1f, if_false, h2, h3]
          exact hInv
        · intro k
          simp [ensure_proxy_fn, h1f, h2, h3, hval]
      | ok args =>
        have hval : valid_proxy_target sigs m = true := by
          simp [valid_proxy_target, h2, h3]
        have hcanon :
            ({ name := proxy_name m
               sig := { sig with ident := proxy_name m }
               body := { modName := extern_fn_mod_name tn
                         fnName := extern_fn_name ns tn m
                         args := args } } : ProxyFn) =
            canonical_proxy tn ns sigs m := by
          simp [canonical_proxy, h2, h3]
        refine ⟨?_, ?_, ?_⟩
        · simp [ensure_proxy_fn, h1f, h2, h3, hval]
        · constructor
          · simp only [ensure_proxy_fn, h1f, if_false, h2, h3, List.map_append,
              List.map_cons, List.map_nil]
            rw [List.nodup_append]
            exact ⟨hInv.1, List.nodup_singleton m, by simpa using h1'⟩
          · intro p hp
            simp only [ensure_proxy_fn, h1f, if_false, h2, h3] at hp
            rcases List.mem_append.mp hp with hpl | hpr
            · exact hInv.2 p hpl
            · rcases List.mem_singleton.mp hpr with rfl
              exact ⟨hval, hcanon.symm ▸ rfl⟩
        · intro k
          simp only [ensure_proxy_fn, h1f, if_false, h2, h3, List.map_append,
            List.map_cons, List.map_nil, List.mem_append, List.mem_singleton,
            hval, true_and]

end CrateInterface

namespace CrateInterface

theorem apply_self_rule_spec (tn : Ident) (ns : Option String) (sigs : SigMap)
    (e : RExpr) (st : ProxyMap) (hInv : ProxyInv tn ns sigs st) :
    (apply_self_rule tn ns sigs e st).1 =
      (match is_self_method_path e with
       | some m =>
         if valid_proxy_target sigs m = true then RExpr.path [proxy_name m] else e
       | none => e) ∧
    ProxyInv tn ns sigs (apply_self_rule tn ns sigs e st).2 ∧
    ∀ k, k ∈ (apply_self_rule tn ns sigs e st).2.map Prod.fst ↔
      k ∈ st.map Prod.fst ∨
        ∃ m, is_self_method_path e = some m ∧
          valid_proxy_target sigs m = true ∧ k = m := by
  cases hi : is_self_method_path e with
  | none =>
    refine ⟨by simp [apply_self_rule, hi], ?_, ?_⟩
    · simp only [apply_self_rule, hi]
      exact hInv
    · intro k
      simp [apply_self_rule, hi]
  | some m =>
    obtain ⟨hf, hI, hk⟩ := ensure_proxy_fn_spec tn ns sigs st m hInv
    cases hval : valid_proxy_target sigs m with
    | true =>
      rcases hEE : ensure_proxy_fn tn ns sigs st m with ⟨efst, esnd⟩
      rw [hEE] at hf hI hk
      simp only at hf hI hk
      rw [hval] at hf
      simp at hf
      subst hf
      refine ⟨?_, ?_, ?_⟩
      · simp [apply_self_rule, hi, hEE, hval]
      · simp only [apply_self_rule, hi, hEE]
        exact hI
      · intro k
        simp only [apply_self_rule, hi, hEE]
        rw [hk k]
        simp [hval]
    | false =>
      rcases hEE : ensure_proxy_fn tn ns sigs st m with ⟨efst, esnd⟩
      rw [hEE] at hf hI hk
      simp only at hf hI hk
      rw [hval] at hf
      simp at hf
      subst hf
      refine ⟨?_, ?_, ?_⟩
      · simp [apply_self_rule, hi, hEE, hval]
      · simp only [apply_self_rule, hi, hEE]
        exact hI
      · intro k
        simp only [apply_self_rule, hi, hEE]
        rw [hk k]
        simp [hval]

theorem visit_expr_spec (tn : Ident) (ns : Option String) (sigs : SigMap) :
    ∀ (e : RExpr) (st : ProxyMap), ProxyInv tn ns sigs st →
      (visit_expr tn ns sigs e st).1 = rewrite_spec sigs e ∧
      ProxyInv tn ns sigs (visit_expr tn ns sigs e st).2 ∧
      ∀ k, k ∈ (visit_expr tn ns sigs e st).2.map Prod.fst ↔
        k ∈ st.map Prod.fst ∨
          (valid_proxy_target sigs k = true ∧ k ∈ self_refs e) := by
  intro e
  induction e with
  | lit n =>
    intro st hInv
    refine ⟨rfl, hInv, ?_⟩
    intro k
    simp [visit_expr, self_refs]
  | path segs =>
    intro st hInv
    obtain ⟨h1, h2, h3⟩ := apply_self_rule_spec tn ns sigs (.path segs) st hInv
    have hv : visit_expr tn ns sigs (.path segs) st =
        apply_self_rule tn ns sigs (.path segs) st := rfl
    rw [hv]
    refine ⟨?_, h2, ?_⟩
    · rw [h1]
      rcases segs with _ | ⟨x, _ | ⟨y, _ | ⟨z, zs⟩⟩⟩
      · simp [is_self_method_path, rewrite_spec]
      · simp [is_self_method_path, rewrite_spec]
      · by_cases hx : x = "Self"
        · subst hx
          cases hvaly : valid_proxy_target sigs y with
          | true => simp [is_self_method_path, rewrite_spec, hvaly]
          | false => simp [is_self_method_path, rewrite_spec, hvaly]
        · simp [is_self_method_path, rewrite_spec, hx]
      · simp [is_self_method_path, rewrite_spec]
    · intro k
      rw [h3 k]
      rcases segs with _ | ⟨x, _ | ⟨y, _ | ⟨z, zs⟩⟩⟩
      · simp [is_self_method_path, self_refs]
      · simp [is_self_method_path, self_refs]
      · by_cases hx : x = "Self"
        · subst hx
          simp only [is_self_method_path, if_pos rfl, self_refs]
          constructor
          · rintro (h | ⟨m, hm, hvm, rfl⟩)
            · exact Or.inl h
            · injection hm with hm'
              subst hm'
              simp [hvm]
          · rintro (h | ⟨hvk, hk⟩)
            · exact Or.inl h
            · have hk2 : k = y := by
                first
                | exact hk
                | simpa using hk
              exact Or.inr ⟨k, by rw [hk2]; simp, hvk, rfl⟩
        · simp [is_self_method_path, self_refs, hx]
      · simp [is_self_method_path, self_refs]
  | call f a ihf iha =>
    intro st hInv
    obtain ⟨hf1, hf2, hf3⟩ := ihf st hInv
    obtain ⟨ha1, ha2, ha3⟩ := iha _ hf2
    obtain ⟨hs1, hs2, hs3⟩ := apply_self_rule_spec tn ns sigs
      (.call (visit_expr tn ns sigs f st).1
        (visit_expr tn ns sigs a (visit_expr tn ns sigs f st).2).1) _ ha2
    have hv : visit_expr tn ns sigs (.call f a) st =
        apply_self_rule tn ns sigs
          (.call (visit_expr tn ns sigs f st).1
            (visit_expr tn ns sigs a (visit_expr tn ns sigs f st).2).1)
          (visit_expr tn ns sigs a (visit_expr tn ns sigs f st).2).2 := rfl
    rw [hv]
    refine ⟨?_, hs2, ?_⟩
    · rw [hs1]
      simp only [is_self_method_path]
      rw [hf1, ha1]
      simp [rewrite_spec]
    · intro k
      rw [hs3 k]
      simp only [is_self_method_path, self_refs]
      rw [ha3 k, hf3 k]
      simp only [List.mem_append]
      constructor
      · rintro (((h | h) | h) | ⟨m, hm, _⟩)
        · exact Or.inl h
        · exact Or.inr ⟨h.1, Or.inl h.2⟩
        · exact Or.inr ⟨h.1, Or.inr h.2⟩
        · exact absurd hm (by simp)
      · rintro (h | ⟨hvk, hk | hk⟩)
        · exact Or.inl (Or.inl (Or.inl h))
        · exact Or.inl (Or.inl (Or.inr ⟨hvk, hk⟩))
        · exact Or.inl (Or.inr ⟨hvk, hk⟩)

end CrateInterface

namespace CrateInterface

theorem rewrite_body_fold_spec (tn : Ident) (ns : Option String) (sigs : SigMap) :
    ∀ (body : List RExpr) (acc0 : List RExpr) (st0 : ProxyMap),
      ProxyInv tn ns sigs st0 →
      (body.foldl
        (fun acc e =>
          (acc.1 ++ [(visit_expr tn ns sigs e acc.2).1],
            (visit_expr tn ns sigs e acc.2).2))
        (acc0, st0)).1 = acc0 ++ body.map (rewrite_spec sigs) ∧
      ProxyInv tn ns sigs
        ((body.foldl
          (fun acc e =>
            (acc.1 ++ [(visit_expr tn ns sigs e acc.2).1],
              (visit_expr tn ns sigs e acc.2).2))
          (acc0, st0)).2) ∧
      ∀ k, k ∈ ((body.foldl
          (fun acc e =>
            (acc.1 ++ [(visit_expr tn ns sigs e acc.2).1],
              (visit_expr tn ns sigs e acc.2).2))
          (acc0, st0)).2).map Prod.fst ↔
        k ∈ st0.map Prod.fst ∨
          (valid_proxy_target sigs k = true ∧ k ∈ (body.map self_refs).flatten) := by
  intro body
  induction body with
  | nil =>
    intro acc0 st0 hInv
    refine ⟨by simp, hInv, ?_⟩
    intro k
    simp
  | cons e es ih =>
    intro acc0 st0 hInv
    obtain ⟨hv1, hv2, hv3⟩ := visit_expr_spec tn ns sigs e st0 hInv
    obtain ⟨h1, h2, h3⟩ := ih (acc0 ++ [(visit_expr tn ns sigs e st0).1])
      (visit_expr tn ns sigs e st0).2 hv2
    refine ⟨?_, h2, ?_⟩
    · rw [List.foldl_cons, h1, hv1]
      simp
    · intro k
      rw [List.foldl_cons, h3 k, hv3 k]
      simp only [List.map_cons, List.flatten_cons, List.mem_append]
      constructor
      · rintro ((h | h) | h)
        · exact Or.inl h
        · exact Or.inr ⟨h.1, Or.inl h.2⟩
        · exact Or.inr ⟨h.1, Or.inr h.2⟩
      · rintro (h | ⟨hvk, hk | hk⟩)
        · exact Or.inl (Or.inl h)
        · exact Or.inl (Or.inr ⟨hvk, hk⟩)
        · exact Or.inr ⟨hvk, hk⟩

end CrateInterface

/-- C4: with the weak-default overlay enabled, the rewriting of a default
method body replaces every `Self::method` expression — whether it stands in
call position or is captured as a value, in every statement — according to
`rewrite_spec`, which maps each two-segment `Self::m` path with `m` a
proxy-able method of the interface to a reference to `m`'s proxy function;
the `generated_proxies` map holds exactly one proxy per distinct referenced
(proxy-able) method of the body; every generated entry is the canonical
proxy of its method; and a method's canonical proxy is named by `proxy_name`
and has as body the unsafe call of the module-qualified synthesized extern
symbol of that method. -/
theorem claim_c4_self_reference_proxying (tn : CrateInterface.Ident)
    (ns : Option String) (sigs : CrateInterface.SigMap)
    (body : List CrateInterface.RExpr) :
    CrateInterface.rewrite_self_in_default_body body tn ns sigs =
      ((CrateInterface.rewrite_body_core tn ns sigs body).2.map Prod.snd,
        body.map (CrateInterface.rewrite_spec sigs)) ∧
    ((CrateInterface.rewrite_body_core tn ns sigs body).2.map Prod.fst).Nodup ∧
    (∀ k, k ∈ (CrateInterface.rewrite_body_core tn ns sigs body).2.map Prod.fst ↔
        CrateInterface.valid_proxy_target sigs k = true ∧
          k ∈ (body.map CrateInterface.self_refs).flatten) ∧
    (∀ p ∈ (CrateInterface.rewrite_body_core tn ns sigs body).2,
        p.2 = CrateInterface.canonical_proxy tn ns sigs p.1) ∧
    (∀ k, (CrateInterface.canonical_proxy tn ns sigs k).name =
        CrateInterface.proxy_name k ∧
      (CrateInterface.canonical_proxy tn ns sigs k).body.modName =
        CrateInterface.extern_fn_mod_name tn ∧
      (CrateInterface.canonical_proxy tn ns sigs k).body.fnName =
        CrateInterface.extern_fn_name ns tn k) := by
  have hInv0 : CrateInterface.ProxyInv tn ns sigs [] := ⟨List.nodup_nil, by simp⟩
  obtain ⟨h1, h2, h3⟩ :=
    CrateInterface.rewrite_body_fold_spec tn ns sigs body [] [] hInv0
  have hcore1 : (CrateInterface.rewrite_body_core tn ns sigs body).1 =
      body.map (CrateInterface.rewrite_spec sigs) := by
    simpa using h1
  refine ⟨?_, h2.1, ?_, fun p hp => (h2.2 p hp).2, fun k => ⟨rfl, rfl, rfl⟩⟩
  · show ((CrateInterface.rewrite_body_core tn ns sigs body).2.map Prod.snd,
      (CrateInterface.rewrite_body_core tn ns sigs body).1) = _
    rw [hcore1]
  · intro k
    show k ∈ (List.foldl
        (fun acc e =>
          (acc.1 ++ [(CrateInterface.visit_expr tn ns sigs e acc.2).1],
            (CrateInterface.visit_expr tn ns sigs e acc.2).2))
        ([], []) body).2.map Prod.fst ↔ _
    rw [h3 k]
    simp
